import Mathlib

/-!
Shallow embedding of the multi-backend resource query aggregator of
`src/server.ts` (handlers `handleListVms`, `handleSearchVms`, `handleListVapps`,
`handleListTasks`, `handleListEvents`), together with proofs of its
specification's claims.  JavaScript strings are modelled as lists of
characters, `undefined` as `Option.none`, thrown-and-caught exceptions as
`Except`, and `Date` values as integers.
-/

namespace CloudDirector

/-- JavaScript strings, modelled as lists of characters. -/
abbrev Str := List Char

/-- JavaScript truthiness of an optional string (`!x` is true exactly when `x`
is `undefined` or the empty string). -/
def jsTruthy : Option Str → Bool
  | none => false
  | some s => !s.isEmpty

/-- Models JavaScript `String.prototype.toLowerCase`, characterwise. -/
def lowerStr (s : Str) : Str := s.map Char.toLower

/-- Does `s` begin with `pat`?  Helper for the substring test below. -/
def startsWithStr : Str → Str → Bool
  | _, [] => true
  | [], _ :: _ => false
  | c :: s, p :: ps => c == p && startsWithStr s ps

/-- Models JavaScript `s.includes(pat)`: contiguous-substring test. -/
def includes : Str → Str → Bool
  | [], pat => startsWithStr [] pat
  | s@(_ :: rest), pat => startsWithStr s pat || includes rest pat

/-- Reference to the containing vApp as returned by the CloudAPI source
(`vm.vapp` with optional `id` and `name`). -/
structure VappRef where
  id : Option Str := none
  name : Option Str := none
deriving DecidableEq

/-- Reference to the containing VDC as returned by the CloudAPI source
(`vm.vdc` with optional `name`). -/
structure VdcRef where
  name : Option Str := none
deriving DecidableEq

/-- A VM record as it flows through `handleListVms` / `handleSearchVms`.
The JavaScript objects are duck-typed; legacy query records populate
`container`, `containerName`, `vdcName`, `href`, while CloudAPI records
populate `vapp`, `vdc`, `id`.  Absent fields are `none`. -/
structure Vm where
  name : Option Str := none
  status : Option Str := none
  container : Option Str := none
  containerName : Option Str := none
  vdcName : Option Str := none
  href : Option Str := none
  id : Option Str := none
  vapp : Option VappRef := none
  vdc : Option VdcRef := none
deriving DecidableEq

/-- Models `v?.toLowerCase().includes(pat.toLowerCase())` coerced to a boolean:
an absent receiver short-circuits to `undefined`, which is falsy. -/
def optLowerIncludes (v : Option Str) (pat : Str) : Bool :=
  match v with
  | none => false
  | some s => includes (lowerStr s) (lowerStr pat)

/-- Name predicate of `handleSearchVms` (lines 1061 and 1080):
`!name || vm.name?.toLowerCase().includes(name.toLowerCase())`. -/
def searchNameMatch (name : Option Str) (vm : Vm) : Bool :=
  !(jsTruthy name) || optLowerIncludes vm.name (name.getD [])

/-- VDC predicate of `handleSearchVms` for legacy query records (line 1062):
`!vdcName || vm.vdcName?.toLowerCase().includes(vdcName.toLowerCase())`. -/
def searchLegacyVdcMatch (vdcName : Option Str) (vm : Vm) : Bool :=
  !(jsTruthy vdcName) || optLowerIncludes vm.vdcName (vdcName.getD [])

/-- VDC predicate of `handleSearchVms` for CloudAPI records (line 1081):
`!vdcName || vm.vdc?.name?.toLowerCase().includes(vdcName.toLowerCase())`. -/
def searchCloudVdcMatch (vdcName : Option Str) (vm : Vm) : Bool :=
  !(jsTruthy vdcName) || optLowerIncludes (vm.vdc.bind VdcRef.name) (vdcName.getD [])

/-- Container predicate of `handleListVms` for legacy query records (line 963):
`!vappId || vm.container === vappId || vm.containerName?.includes(vappId)`. -/
def listVmsLegacyVappMatch (vappId : Option Str) (vm : Vm) : Bool :=
  !(jsTruthy vappId) || vm.container == vappId ||
    (match vm.containerName with
     | none => false
     | some cn => includes cn (vappId.getD []))

/-- Container predicate of `handleListVms` for CloudAPI records (line 981):
`!vappId || vm.vapp?.id === vappId || vm.vapp?.name?.includes(vappId)`. -/
def listVmsCloudVappMatch (vappId : Option Str) (vm : Vm) : Bool :=
  !(jsTruthy vappId) ||
    (match vm.vapp with
     | none => false
     | some vp => vp.id == vappId) ||
    (match vm.vapp.bind VappRef.name with
     | none => false
     | some n => includes n (vappId.getD []))

/-- Status predicate of `handleListVms` (lines 964 and 982):
`!status || vm.status === status`. -/
def statusMatch (status : Option Str) (vm : Vm) : Bool :=
  !(jsTruthy status) || vm.status == status

/-- Client-side filter applied to legacy query records in `handleListVms`
(lines 962-966). -/
def listVmsFilterLegacy (vappId status : Option Str) (vm : Vm) : Bool :=
  listVmsLegacyVappMatch vappId vm && statusMatch status vm

/-- Client-side filter applied to CloudAPI records in `handleListVms`
(lines 980-984). -/
def listVmsFilterCloud (vappId status : Option Str) (vm : Vm) : Bool :=
  listVmsCloudVappMatch vappId vm && statusMatch status vm

/-- Client-side filter applied to legacy query records in `handleSearchVms`
(lines 1060-1064). -/
def searchFilterLegacy (name vdcName : Option Str) (vm : Vm) : Bool :=
  searchNameMatch name vm && searchLegacyVdcMatch vdcName vm

/-- Client-side filter applied to CloudAPI records in `handleSearchVms`
(lines 1079-1083). -/
def searchFilterCloud (name vdcName : Option Str) (vm : Vm) : Bool :=
  searchNameMatch name vm && searchCloudVdcMatch vdcName vm

/-- The duplicate removal of `handleListVms` (lines 991-993) and
`handleSearchVms` (lines 1090-1092):
`allVms.filter((vm, index, self) => index === self.findIndex(v => v.name === vm.name))`. -/
def dedupeByName (self : List Vm) : List Vm :=
  (self.enum.filter (fun p => self.findIdx (fun v => v.name == p.2.name) == p.1)).map
    Prod.snd

/-- The positions that the duplicate-removal filter of `dedupeByName` keeps. -/
def keptIndices (self : List Vm) : List Nat :=
  (self.enum.filter (fun p => self.findIdx (fun v => v.name == p.2.name) == p.1)).map
    Prod.fst

/-- Result of querying one backend source: a list of raw records, or the
caught per-source failure with its optional HTTP status code. -/
inductive SourceResult where
  | ok : List Vm → SourceResult
  | err : Option Nat → SourceResult
deriving DecidableEq

/-- One line of the `searchResults` diagnostic summary: either
`` `${desc}: ${items.length} items` `` or `` `${desc}: Failed (${status})` ``. -/
inductive Outcome where
  | success : Str → Nat → Outcome
  | failure : Str → Option Nat → Outcome
deriving DecidableEq

/-- The diagnostic line pushed for one source (success with raw-record count,
or failure with the caught status code). -/
def srcOutcome (desc : Str) : SourceResult → Outcome
  | .ok items => .success desc items.length
  | .err code => .failure desc code

/-- The records a source contributes to `allVms`: its items run through the
client-side filter on success, nothing on failure. -/
def srcRecords (filt : Vm → Bool) : SourceResult → List Vm
  | .ok items => items.filter filt
  | .err _ => []

/-- The aggregated answer: `uniqueVms` plus the `searchResults` summary. -/
structure AggregationOutput where
  records : List Vm
  outcomes : List Outcome
deriving DecidableEq

/-- Description string of the standard VM query source. -/
def descStdVm : Str := "Standard VM query".toList

/-- Description string of the admin VM query source. -/
def descAdminVm : Str := "Admin VM query".toList

/-- Description string of the vApp query source of `handleSearchVms`. -/
def descVappQuery : Str := "vApp query (for VMs in vApps)".toList

/-- Description string of the CloudAPI source. -/
def descCloud : Str := "CloudAPI VMs".toList

/-- Core of `handleListVms` (lines 921-1011): the two legacy query sources are
attempted first, in order, then CloudAPI; each source's caught failure only
adds a diagnostic line; contributed records are concatenated in that order and
then deduplicated by name. -/
def listVmsCore (vappId status : Option Str) (vmQ adminQ cloudQ : SourceResult) :
    AggregationOutput :=
  { records := dedupeByName
      (srcRecords (listVmsFilterLegacy vappId status) vmQ ++
        srcRecords (listVmsFilterLegacy vappId status) adminQ ++
        srcRecords (listVmsFilterCloud vappId status) cloudQ),
    outcomes := [srcOutcome descStdVm vmQ, srcOutcome descAdminVm adminQ,
      srcOutcome descCloud cloudQ] }

/-- Core of `handleSearchVms` (lines 1017-1113): sources `vm`, `adminVM`,
`vApp`, then CloudAPI; the `vApp` source gets an outcome line but contributes
no records (lines 1058-1066 guard on the query type). -/
def searchVmsCore (name vdcName : Option Str) (vmQ adminQ vappQ cloudQ : SourceResult) :
    AggregationOutput :=
  { records := dedupeByName
      (srcRecords (searchFilterLegacy name vdcName) vmQ ++
        srcRecords (searchFilterLegacy name vdcName) adminQ ++
        srcRecords (searchFilterCloud name vdcName) cloudQ),
    outcomes := [srcOutcome descStdVm vmQ, srcOutcome descAdminVm adminQ,
      srcOutcome descVappQuery vappQ, srcOutcome descCloud cloudQ] }

/-- JavaScript `s.split(sep)` for a single-character separator. -/
def splitChar (sep : Char) : Str → List Str
  | [] => [[]]
  | c :: rest =>
    if c == sep then [] :: splitChar sep rest
    else
      match splitChar sep rest with
      | [] => [[c]]
      | s :: ss => (c :: s) :: ss

/-- Models `s.split('/').pop()`: the last field of the split (the split of a
string is never empty, so the default is never taken). -/
def lastSegment (s : Str) : Str := ((splitChar '/' s).getLast?).getD []

/-- The attribute bag (`record.$`) of one parsed `VAppRecord` XML element
(`handleListVapps`, lines 884-895); every attribute is an optional string. -/
structure VappAttrs where
  name : Option Str := none
  status : Option Str := none
  href : Option Str := none
  vdcName : Option Str := none
  numberOfVMs : Option Str := none
  numberOfCpus : Option Str := none
  memoryAllocationMB : Option Str := none
  creationDate : Option Str := none
  description : Option Str := none
deriving DecidableEq

/-- One parsed XML element as handed to the normalizing `map`: `record.$`
itself may be absent (an element with no attributes). -/
structure RawXmlRecord where
  attrs : Option VappAttrs := none
deriving DecidableEq

/-- The normalized vApp record built by `handleListVapps` (lines 884-895). -/
structure Vapp where
  name : Option Str
  status : Option Str
  href : Option Str
  vdcName : Option Str
  id : Option Str
  numberOfVMs : Option Str
  numberOfCpus : Option Str
  memoryAllocationMB : Option Str
  creationDate : Option Str
  description : Option Str
deriving DecidableEq

/-- Normalization of one record whose attribute bag is present:
`id` is `record.$.href?.split('/').pop()`, every other field is copied. -/
def extractVappAttrs (a : VappAttrs) : Vapp :=
  { name := a.name, status := a.status, href := a.href, vdcName := a.vdcName,
    id := a.href.map lastSegment,
    numberOfVMs := a.numberOfVMs, numberOfCpus := a.numberOfCpus,
    memoryAllocationMB := a.memoryAllocationMB, creationDate := a.creationDate,
    description := a.description }

/-- Normalization of one record: accessing `record.$.name` throws a TypeError
when the attribute bag `record.$` is absent. -/
def extractVapp (r : RawXmlRecord) : Except Unit Vapp :=
  match r.attrs with
  | none => .error ()
  | some a => .ok (extractVappAttrs a)

/-- JavaScript `Array.prototype.map(f)` when `f` can throw: the elements are
visited in order and the first throw aborts the whole map. -/
def mapExceptList (f : α → Except Unit β) : List α → Except Unit (List β)
  | [] => .ok []
  | a :: as =>
    match f a with
    | .error e => .error e
    | .ok b =>
      match mapExceptList f as with
      | .error e => .error e
      | .ok bs => .ok (b :: bs)

/-- Batch normalization of `handleListVapps` (lines 879-899): `vapps` is the
mapped batch, but a throw inside the `map` is caught by the surrounding
`catch (xmlError)` and leaves `vapps = []`. -/
def vappsFromXml (records : List RawXmlRecord) : List Vapp :=
  match mapExceptList extractVapp records with
  | .ok l => l
  | .error _ => []

/-- A task record as filtered by `handleListTasks`; `startTime` is the parsed
`startDate` instant (absent when the attribute is missing or empty). -/
structure Task where
  name : Option Str := none
  startTime : Option Int := none
deriving DecidableEq

/-- Time predicate of `handleListTasks` (lines 1485-1491):
`task.startTime ? new Date(task.startTime) >= startTime : false`. -/
def taskTimeMatch (since : Int) (task : Task) : Bool :=
  match task.startTime with
  | some t => decide (since ≤ t)
  | none => false

/-- An event record as filtered by `handleListEvents`. -/
structure Event where
  eventType : Option Str := none
  timeStamp : Option Int := none
deriving DecidableEq

/-- Time predicate of `handleListEvents` (lines 2228-2234):
`event.timeStamp ? new Date(event.timeStamp) >= startTime : false`. -/
def eventTimeMatch (since : Int) (event : Event) : Bool :=
  match event.timeStamp with
  | some t => decide (since ≤ t)
  | none => false

/-- Modelled from the spec: "String predicates (name, container) are
case-insensitive substring matches" — `pat` occurs contiguously inside `s`
once both are lowercased. -/
def SpecCaseInsensitiveSubstring (pat s : Str) : Prop :=
  ∃ pre post, lowerStr s = pre ++ lowerStr pat ++ post

/-- Positions kept by the duplicate-removal filter, computed from the name
sequence alone; used to state that no other field influences deduplication. -/
def namesKept (ns : List (Option Str)) : List Nat :=
  (ns.enum.filter (fun p => ns.findIdx (fun n => n == p.2) == p.1)).map Prod.fst

/-- The deduplicated name sequence, computed from the name sequence alone. -/
def namesDeduped (ns : List (Option Str)) : List (Option Str) :=
  (ns.enum.filter (fun p => ns.findIdx (fun n => n == p.2) == p.1)).map Prod.snd

theorem startsWithStr_iff : ∀ s pat : Str,
    startsWithStr s pat = true ↔ ∃ post, s = pat ++ post
  | s, [] => by
    simp only [startsWithStr, List.nil_append, true_iff]
    exact ⟨s, rfl⟩
  | [], p :: ps => by
    simp [startsWithStr]
  | c :: s, p :: ps => by
    simp only [startsWithStr, Bool.and_eq_true, beq_iff_eq, startsWithStr_iff s ps]
    constructor
    · rintro ⟨rfl, post, rfl⟩
      exact ⟨post, rfl⟩
    · rintro ⟨post, h⟩
      injection h with h1 h2
      exact ⟨h1, post, h2⟩

theorem includes_iff : ∀ s pat : Str,
    includes s pat = true ↔ ∃ pre post, s = pre ++ pat ++ post
  | [], pat => by
    simp only [includes, startsWithStr_iff]
    constructor
    · rintro ⟨post, h⟩
      exact ⟨[], post, h⟩
    · rintro ⟨pre, post, h⟩
      have h' := h.symm
      rw [List.append_assoc, List.append_eq_nil] at h'
      exact ⟨post, by rw [h'.1] at h; simpa using h⟩
  | c :: rest, pat => by
    simp only [includes, Bool.or_eq_true, startsWithStr_iff, includes_iff rest pat]
    constructor
    · rintro (⟨post, h⟩ | ⟨pre, post, h⟩)
      · exact ⟨[], post, by simpa using h⟩
      · exact ⟨c :: pre, post, by simp [h]⟩
    · rintro ⟨pre, post, h⟩
      cases pre with
      | nil => exact Or.inl ⟨post, by simpa using h⟩
      | cons d pre' =>
        rw [List.cons_append, List.cons_append] at h
        injection h with h1 h2
        exact Or.inr ⟨pre', post, h2⟩

theorem mem_dedupeByName_iff {l : List Vm} {x : Vm} :
    x ∈ dedupeByName l ↔
      ∃ j : Nat, l[j]? = some x ∧ l.findIdx (fun v => v.name == x.name) = j := by
  unfold dedupeByName
  simp only [List.mem_map, List.mem_filter]
  constructor
  · rintro ⟨⟨j, y⟩, ⟨hmem, hcond⟩, rfl⟩
    rw [List.mem_enum_iff_getElem?] at hmem
    exact ⟨j, hmem, by simpa using hcond⟩
  · rintro ⟨j, hget, hidx⟩
    refine ⟨(j, x), ⟨?_, ?_⟩, rfl⟩
    · rw [List.mem_enum_iff_getElem?]
      exact hget
    · simpa using hidx

theorem dedupeByName_pairwise (l : List Vm) :
    (dedupeByName l).Pairwise (fun a b => a.name ≠ b.name) := by
  unfold dedupeByName
  rw [List.pairwise_map]
  have h1 : l.enum.Pairwise (fun a b : Nat × Vm => a.1 ≠ b.1) := by
    have h0 := List.nodup_range l.length
    rw [← List.enum_map_fst l] at h0
    exact List.pairwise_map.mp h0
  have h2 := h1.filter (fun p => l.findIdx (fun v => v.name == p.2.name) == p.1)
  refine List.Pairwise.imp_of_mem ?_ h2
  intro a b ha hb hne heq
  rw [List.mem_filter] at ha hb
  have hA : l.findIdx (fun v => v.name == a.2.name) = a.1 := by simpa using ha.2
  have hB : l.findIdx (fun v => v.name == b.2.name) = b.1 := by simpa using hb.2
  rw [heq] at hA
  exact hne (hA.symm.trans hB)

theorem dedupeByName_sublist (l : List Vm) : List.Sublist (dedupeByName l) l := by
  unfold dedupeByName
  have h := List.filter_sublist
    (p := fun p : Nat × Vm => l.findIdx (fun v => v.name == p.2.name) == p.1) l.enum
  have h2 := h.map Prod.snd
  rwa [List.enum_map_snd] at h2

theorem dedupeByName_covers {l : List Vm} {x : Vm} (hx : x ∈ l) :
    ∃ y ∈ dedupeByName l, y.name = x.name := by
  have hex : ∃ v ∈ l, (fun v => v.name == x.name) v = true := ⟨x, hx, by simp⟩
  have hlt := List.findIdx_lt_length_of_exists hex
  have hsome : l[l.findIdx (fun v => v.name == x.name)]? =
      some (l.get ⟨l.findIdx (fun v => v.name == x.name), hlt⟩) := by
    rw [List.get_eq_getElem]
    exact List.getElem?_eq_getElem hlt
  have hp := List.findIdx_of_getElem?_eq_some hsome
  have hyn : (l.get ⟨l.findIdx (fun v => v.name == x.name), hlt⟩).name = x.name := by
    simpa using hp
  refine ⟨l.get ⟨l.findIdx (fun v => v.name == x.name), hlt⟩, ?_, hyn⟩
  rw [mem_dedupeByName_iff]
  refine ⟨l.findIdx (fun v => v.name == x.name), hsome, ?_⟩
  rw [hyn]

theorem dedupeByName_pair_collapse {a b : Vm} (h : a.name = b.name) :
    dedupeByName [a, b] = [a] := by
  have h1 : [a, b].findIdx (fun v => v.name == a.name) = 0 := by
    simp [List.findIdx_cons]
  have h2 : [a, b].findIdx (fun v => v.name == b.name) = 0 := by
    simp [List.findIdx_cons, h]
  simp [dedupeByName, List.enum, List.enumFrom, List.filter, h1, h2]

theorem findIdx_name_eq_map (l : List Vm) (k : Option Str) :
    l.findIdx (fun v => v.name == k) = (l.map Vm.name).findIdx (fun n => n == k) := by
  induction l with
  | nil => rfl
  | cons a l ih => simp [List.findIdx_cons, ih]

theorem keptIndices_eq_namesKept (l : List Vm) :
    keptIndices l = namesKept (l.map Vm.name) := by
  unfold keptIndices namesKept
  rw [List.enum_map, List.filter_map, List.map_map]
  have hc : ((fun p : Nat × Option Str =>
        (l.map Vm.name).findIdx (fun n => n == p.2) == p.1) ∘ Prod.map id Vm.name) =
      (fun p : Nat × Vm => l.findIdx (fun v => v.name == p.2.name) == p.1) := by
    funext p
    rcases p with ⟨i, v⟩
    simp [Prod.map, ← findIdx_name_eq_map]
  have hf : ((Prod.fst : Nat × Option Str → Nat) ∘ Prod.map id Vm.name) =
      (Prod.fst : Nat × Vm → Nat) := by
    funext p
    rcases p with ⟨i, v⟩
    rfl
  rw [hc, hf]

theorem dedupeByName_map_name_eq (l : List Vm) :
    (dedupeByName l).map Vm.name = namesDeduped (l.map Vm.name) := by
  unfold dedupeByName namesDeduped
  rw [List.enum_map, List.filter_map, List.map_map, List.map_map]
  have hc : ((fun p : Nat × Option Str =>
        (l.map Vm.name).findIdx (fun n => n == p.2) == p.1) ∘ Prod.map id Vm.name) =
      (fun p : Nat × Vm => l.findIdx (fun v => v.name == p.2.name) == p.1) := by
    funext p
    rcases p with ⟨i, v⟩
    simp [Prod.map, ← findIdx_name_eq_map]
  have hf : ((Prod.snd : Nat × Option Str → Option Str) ∘ Prod.map id Vm.name) =
      (Vm.name ∘ (Prod.snd : Nat × Vm → Vm)) := by
    funext p
    rcases p with ⟨i, v⟩
    rfl
  rw [hc, hf]

theorem splitChar_ne_nil (sep : Char) (s : Str) : splitChar sep s ≠ [] := by
  cases s with
  | nil => simp [splitChar]
  | cons c rest =>
    simp only [splitChar]
    split
    · simp
    · split
      · simp
      · simp

theorem splitChar_of_not_mem {sep : Char} {s : Str} (h : sep ∉ s) :
    splitChar sep s = [s] := by
  induction s with
  | nil => rfl
  | cons c rest ih =>
    have hcs : ¬(sep = c) ∧ sep ∉ rest := by
      rw [List.mem_cons] at h
      exact ⟨fun e => h (Or.inl e), fun m => h (Or.inr m)⟩
    have hc : (c == sep) = false := by
      simp only [beq_eq_false_iff_ne, ne_eq]
      exact fun e => hcs.1 e.symm
    simp [splitChar, hc, ih hcs.2]

theorem two_le_length_splitChar {sep : Char} {s : Str} (h : sep ∈ s) :
    2 ≤ (splitChar sep s).length := by
  induction s with
  | nil => cases h
  | cons c rest ih =>
    by_cases hc : c = sep
    · subst hc
      simp only [splitChar, beq_self_eq_true, if_true, List.length_cons]
      have hne := splitChar_ne_nil c rest
      have hpos : 0 < (splitChar c rest).length := List.length_pos.mpr hne
      omega
    · have hmem : sep ∈ rest := by
        rcases List.mem_cons.mp h with h1 | h1
        · exact absurd h1.symm hc
        · exact h1
      have h2 := ih hmem
      simp only [splitChar]
      rw [if_neg (by simp [hc])]
      cases hsp : splitChar sep rest with
      | nil => exact absurd hsp (splitChar_ne_nil sep rest)
      | cons s' ss =>
        rw [hsp] at h2
        simpa using h2

theorem splitChar_getLast_append {sep : Char} (pre suf : Str) (h : sep ∉ suf) :
    (splitChar sep (pre ++ sep :: suf)).getLast? = some suf := by
  induction pre with
  | nil =>
    rw [List.nil_append]
    simp only [splitChar, beq_self_eq_true, if_true]
    rw [splitChar_of_not_mem h]
    rfl
  | cons c pre ih =>
    rw [List.cons_append]
    by_cases hc : c = sep
    · subst hc
      simp only [splitChar, beq_self_eq_true, if_true]
      cases hsp : splitChar c (pre ++ c :: suf) with
      | nil => exact absurd hsp (splitChar_ne_nil _ _)
      | cons s' ss =>
        rw [List.getLast?_cons_cons]
        rw [hsp] at ih
        exact ih
    · simp only [splitChar]
      rw [if_neg (by simp [hc])]
      cases hsp : splitChar sep (pre ++ sep :: suf) with
      | nil => exact absurd hsp (splitChar_ne_nil _ _)
      | cons s' ss =>
        have h2 : 2 ≤ (splitChar sep (pre ++ sep :: suf)).length :=
          two_le_length_splitChar (by simp)
        rw [hsp] at h2
        cases ss with
        | nil => simp at h2
        | cons t ts =>
          rw [List.getLast?_cons_cons]
          rw [hsp] at ih
          rw [List.getLast?_cons_cons] at ih
          exact ih

theorem lastSegment_append {pre suf : Str} (h : ('/' : Char) ∉ suf) :
    lastSegment (pre ++ '/' :: suf) = suf := by
  unfold lastSegment
  rw [splitChar_getLast_append pre suf h]
  rfl

theorem mapExceptList_extractVapp_ok {records : List RawXmlRecord}
    (h : ∀ r ∈ records, r.attrs ≠ none) :
    mapExceptList extractVapp records =
      .ok (records.map (fun r => extractVappAttrs (r.attrs.getD {}))) := by
  induction records with
  | nil => rfl
  | cons r rs ih =>
    have hr := h r (List.mem_cons_self r rs)
    cases ha : r.attrs with
    | none => exact absurd ha hr
    | some a =>
      simp only [mapExceptList, extractVapp, ha]
      rw [ih (fun x hx => h x (List.mem_cons_of_mem r hx))]
      simp [ha]

theorem mapExceptList_extractVapp_error {records : List RawXmlRecord} {r : RawXmlRecord}
    (hr : r ∈ records) (ha : r.attrs = none) :
    mapExceptList extractVapp records = .error () := by
  induction records with
  | nil => cases hr
  | cons x xs ih =>
    rcases List.mem_cons.mp hr with heq | hmem
    · subst heq
      simp [mapExceptList, extractVapp, ha]
    · simp only [mapExceptList]
      cases hx : extractVapp x with
      | error e =>
        cases e
        rfl
      | ok b =>
        rw [ih hmem]

/-- C1: for every input batch gathered from all sources, the deduplicated
output has no two records with the same identity key (the record name), is a
subsequence of the concatenated input (so relative order is preserved), gives
every input record a same-named representative, and each surviving record
occupies the first position at which its name appears in the input. -/
theorem dedupe_unique_key_and_stable_order (l : List Vm) :
    (dedupeByName l).Pairwise (fun a b => a.name ≠ b.name) ∧
    List.Sublist (dedupeByName l) l ∧
    (∀ x ∈ l, ∃ y ∈ dedupeByName l, y.name = x.name) ∧
    (∀ y ∈ dedupeByName l, ∃ j : Nat, l[j]? = some y ∧
      l.findIdx (fun v => v.name == y.name) = j) :=
  ⟨dedupeByName_pairwise l, dedupeByName_sublist l,
    fun _ hx => dedupeByName_covers hx,
    fun _ hy => mem_dedupeByName_iff.mp hy⟩

/-- Witness: the coverage conjunct of the dedupe theorem applied to a concrete
two-record batch with a duplicated name. -/
theorem dedupe_unique_key_and_stable_order_witness :
    ∃ y ∈ dedupeByName
        [{ name := some "a".toList },
         { name := some "a".toList, status := some "on".toList }],
      y.name = ({ name := some "a".toList, status := some "on".toList } : Vm).name :=
  (dedupe_unique_key_and_stable_order
      [{ name := some "a".toList },
       { name := some "a".toList, status := some "on".toList }]).2.2.1
    { name := some "a".toList, status := some "on".toList } (by decide)

/-- C2 counterexample: with no filters, when the legacy `vm` query source and
the CloudAPI source both report a record named `web-01`, the aggregated result
keeps the legacy source's version, not the modern CloudAPI one. -/
theorem listVms_keeps_legacy_not_modern :
    (listVmsCore none none
        (SourceResult.ok [{ name := some "web-01".toList,
                            containerName := some "legacy-vapp".toList }])
        (SourceResult.ok [])
        (SourceResult.ok [{ name := some "web-01".toList,
                            vapp := some { name := some "modern-vapp".toList } }])).records =
      [{ name := some "web-01".toList, containerName := some "legacy-vapp".toList }] ∧
    ({ name := some "web-01".toList, containerName := some "legacy-vapp".toList } : Vm) ≠
      { name := some "web-01".toList, vapp := some { name := some "modern-vapp".toList } } := by
  constructor
  · decide
  · decide

/-- C2 amended: the fixed source order of `handleListVms` ranks the legacy
query sources ahead of the modern CloudAPI source (CloudAPI records are
appended last), so first-seen-wins deduplication keeps the legacy source's
version when both report a record with the same name. -/
theorem legacy_ranked_ahead_of_modern (a b : Vm) (h : a.name = b.name) :
    (listVmsCore none none (SourceResult.ok [a]) (SourceResult.ok [])
        (SourceResult.ok [b])).records = [a] := by
  have hfa : listVmsFilterLegacy none none a = true := rfl
  have hfb : listVmsFilterCloud none none b = true := rfl
  have h1 : List.filter (listVmsFilterLegacy none none) [a] = [a] := by
    simp [List.filter, hfa]
  have h2 : List.filter (listVmsFilterCloud none none) [b] = [b] := by
    simp [List.filter, hfb]
  simp only [listVmsCore, srcRecords, h1, h2, List.filter_nil, List.append_nil,
    List.nil_append, List.cons_append]
  exact dedupeByName_pair_collapse h

/-- Witness: the amended priority theorem at a concrete legacy/CloudAPI pair
sharing the name `w`. -/
theorem legacy_ranked_ahead_of_modern_witness :
    (listVmsCore none none
        (SourceResult.ok [{ name := some "w".toList, container := some "c1".toList }])
        (SourceResult.ok [])
        (SourceResult.ok [{ name := some "w".toList, id := some "x".toList }])).records =
      [{ name := some "w".toList, container := some "c1".toList }] :=
  legacy_ranked_ahead_of_modern
    { name := some "w".toList, container := some "c1".toList }
    { name := some "w".toList, id := some "x".toList } rfl

/-- C9: deduplication uses the record name as sole identity key: two records
with the same name collapse into one even when all other fields (for example
the container) differ, and both the surviving positions and the surviving name
sequence are functions of the input's name sequence alone. -/
theorem dedupe_name_is_sole_identity :
    (∀ a b : Vm, a.name = b.name → dedupeByName [a, b] = [a]) ∧
    (∀ l₁ l₂ : List Vm, l₁.map Vm.name = l₂.map Vm.name →
      keptIndices l₁ = keptIndices l₂ ∧
      (dedupeByName l₁).map Vm.name = (dedupeByName l₂).map Vm.name) := by
  constructor
  · exact fun a b h => dedupeByName_pair_collapse h
  · intro l₁ l₂ h
    constructor
    · rw [keptIndices_eq_namesKept, keptIndices_eq_namesKept, h]
    · rw [dedupeByName_map_name_eq, dedupeByName_map_name_eq, h]

/-- Witness: two same-named records in different containers collapse to the
first one. -/
theorem dedupe_name_is_sole_identity_witness :
    dedupeByName
        [{ name := some "n".toList, containerName := some "c1".toList },
         { name := some "n".toList, containerName := some "c2".toList }] =
      [{ name := some "n".toList, containerName := some "c1".toList }] :=
  dedupe_name_is_sole_identity.1
    { name := some "n".toList, containerName := some "c1".toList }
    { name := some "n".toList, containerName := some "c2".toList } rfl

/-- C10: records with an absent name all share one identity key: the output
has at most one nameless record, a surviving nameless record occupies the
first nameless position of the input, and of two nameless records only the
first survives, whatever their other fields. -/
theorem nameless_records_share_key :
    (∀ l : List Vm, ((dedupeByName l).filter (fun v => v.name == none)).length ≤ 1) ∧
    (∀ l : List Vm, ∀ y ∈ dedupeByName l, y.name = none →
      ∃ j : Nat, l[j]? = some y ∧ l.findIdx (fun v => v.name == none) = j) ∧
    (∀ a b : Vm, a.name = none → b.name = none → dedupeByName [a, b] = [a]) := by
  refine ⟨?_, ?_, ?_⟩
  · intro l
    cases hlist : (dedupeByName l).filter (fun v => v.name == none) with
    | nil => simp
    | cons a t =>
      cases t with
      | nil => simp
      | cons b t' =>
        exfalso
        have hp := (dedupeByName_pairwise l).filter (fun v => v.name == none)
        rw [hlist] at hp
        have hab : a.name ≠ b.name :=
          List.rel_of_pairwise_cons hp (List.mem_cons_self b t')
        have ha : a ∈ List.filter (fun v => v.name == none) (dedupeByName l) := by
          rw [hlist]
          exact List.mem_cons_self a (b :: t')
        have hb : b ∈ List.filter (fun v => v.name == none) (dedupeByName l) := by
          rw [hlist]
          exact List.mem_cons_of_mem a (List.mem_cons_self b t')
        have ha' : a.name = none := by simpa using List.of_mem_filter ha
        have hb' : b.name = none := by simpa using List.of_mem_filter hb
        exact hab (ha'.trans hb'.symm)
  · intro l y hy hn
    have h := mem_dedupeByName_iff.mp hy
    rwa [hn] at h
  · intro a b ha hb
    exact dedupeByName_pair_collapse (ha.trans hb.symm)

/-- Witness: of two nameless records differing in every other field only the
first survives. -/
theorem nameless_records_share_key_witness :
    dedupeByName [({ status := some "on".toList } : Vm), { id := some "x".toList }] =
      [{ status := some "on".toList }] :=
  nameless_records_share_key.2.2 { status := some "on".toList } { id := some "x".toList }
    rfl rfl

/-- C4: every predicate fails closed: with an active (truthy) filter value, a
record lacking the targeted field is excluded, for the name predicate, both
container predicates, both VDC predicates, the status predicate, and the time
predicates of the task and event listings. -/
theorem predicates_fail_closed :
    (∀ f vm, jsTruthy f = true → Vm.name vm = none → searchNameMatch f vm = false) ∧
    (∀ f vm, jsTruthy f = true → Vm.vdcName vm = none →
      searchLegacyVdcMatch f vm = false) ∧
    (∀ f vm, jsTruthy f = true → (Vm.vdc vm).bind VdcRef.name = none →
      searchCloudVdcMatch f vm = false) ∧
    (∀ f vm, jsTruthy f = true → Vm.container vm = none → Vm.containerName vm = none →
      listVmsLegacyVappMatch f vm = false) ∧
    (∀ f vm, jsTruthy f = true → (Vm.vapp vm).bind VappRef.id = none →
      (Vm.vapp vm).bind VappRef.name = none → listVmsCloudVappMatch f vm = false) ∧
    (∀ f vm, jsTruthy f = true → Vm.status vm = none → statusMatch f vm = false) ∧
    (∀ since task, Task.startTime task = none → taskTimeMatch since task = false) ∧
    (∀ since event, Event.timeStamp event = none → eventTimeMatch since event = false) := by
  refine ⟨?_, ?_, ?_, ?_, ?_, ?_, ?_, ?_⟩
  · intro f vm hf hn
    rcases f with _ | s
    · simp [jsTruthy] at hf
    · simp [searchNameMatch, optLowerIncludes, hf, hn]
  · intro f vm hf hn
    rcases f with _ | s
    · simp [jsTruthy] at hf
    · simp [searchLegacyVdcMatch, optLowerIncludes, hf, hn]
  · intro f vm hf hn
    rcases f with _ | s
    · simp [jsTruthy] at hf
    · simp [searchCloudVdcMatch, optLowerIncludes, hf, hn]
  · intro f vm hf hc hcn
    rcases f with _ | s
    · simp [jsTruthy] at hf
    · simp [listVmsLegacyVappMatch, hf, hc, hcn]
  · intro f vm hf hid hnm
    rcases f with _ | s
    · simp [jsTruthy] at hf
    · rcases hv : vm.vapp with _ | vp
      · simp [listVmsCloudVappMatch, hf, hv]
      · rw [hv] at hid hnm
        simp only [Option.some_bind] at hid hnm
        simp [listVmsCloudVappMatch, hf, hv, hid, hnm]
  · intro f vm hf hs
    rcases f with _ | s
    · simp [jsTruthy] at hf
    · simp [statusMatch, hf, hs]
  · intro since task h
    simp [taskTimeMatch, h]
  · intro since event h
    simp [eventTimeMatch, h]

/-- Witness: each fail-closed conjunct applied to a concrete record lacking
the targeted field, with the filter active. -/
theorem predicates_fail_closed_witness :
    searchNameMatch (some "a".toList) { status := some "on".toList } = false ∧
    searchLegacyVdcMatch (some "a".toList) {} = false ∧
    searchCloudVdcMatch (some "a".toList) {} = false ∧
    listVmsLegacyVappMatch (some "a".toList) {} = false ∧
    listVmsCloudVappMatch (some "a".toList) {} = false ∧
    statusMatch (some "a".toList) {} = false ∧
    taskTimeMatch 0 {} = false ∧
    eventTimeMatch 0 {} = false :=
  ⟨predicates_fail_closed.1 (some "a".toList) { status := some "on".toList }
      (by decide) rfl,
   predicates_fail_closed.2.1 (some "a".toList) {} (by decide) rfl,
   predicates_fail_closed.2.2.1 (some "a".toList) {} (by decide) rfl,
   predicates_fail_closed.2.2.2.1 (some "a".toList) {} (by decide) rfl rfl,
   predicates_fail_closed.2.2.2.2.1 (some "a".toList) {} (by decide) rfl rfl,
   predicates_fail_closed.2.2.2.2.2.1 (some "a".toList) {} (by decide) rfl,
   predicates_fail_closed.2.2.2.2.2.2.1 0 {} rfl,
   predicates_fail_closed.2.2.2.2.2.2.2 0 {} rfl⟩

/-- Helper: the lowercased-includes test coincides with the spec's
case-insensitive substring relation when the field is present. -/
theorem optLowerIncludes_iff {v pat : Str} :
    optLowerIncludes (some v) pat = true ↔ SpecCaseInsensitiveSubstring pat v := by
  unfold optLowerIncludes SpecCaseInsensitiveSubstring
  exact includes_iff (lowerStr v) (lowerStr pat)

/-- C5 counterexample: the container predicate of `handleListVms` is not a
case-insensitive substring match: `myapp` is a case-insensitive substring of
the record's container name `MyApp`, yet the predicate rejects the record. -/
theorem container_predicate_not_case_insensitive :
    listVmsLegacyVappMatch (some "myapp".toList)
        { containerName := some "MyApp".toList } = false ∧
    SpecCaseInsensitiveSubstring "myapp".toList "MyApp".toList := by
  constructor
  · decide
  · exact ⟨[], [], by decide⟩

/-- C5 amended: in `handleSearchVms` the name predicate and both VDC
predicates match exactly when the filter is a case-insensitive substring of
the present field, and the status predicate matches exactly when the status
equals the filter; but the container predicate of `handleListVms` matches
exactly when the filter equals the `container` field or is a case-SENSITIVE
substring of the `containerName` field. -/
theorem string_predicate_semantics :
    (∀ f n vm, Vm.name vm = some n →
      (searchNameMatch (some f) vm = true ↔ SpecCaseInsensitiveSubstring f n)) ∧
    (∀ f d vm, Vm.vdcName vm = some d →
      (searchLegacyVdcMatch (some f) vm = true ↔ SpecCaseInsensitiveSubstring f d)) ∧
    (∀ f d vm, (Vm.vdc vm).bind VdcRef.name = some d →
      (searchCloudVdcMatch (some f) vm = true ↔ SpecCaseInsensitiveSubstring f d)) ∧
    (∀ f s vm, jsTruthy (some f) = true → Vm.status vm = some s →
      (statusMatch (some f) vm = true ↔ s = f)) ∧
    (∀ f vm, jsTruthy (some f) = true →
      (listVmsLegacyVappMatch (some f) vm = true ↔
        (Vm.container vm = some f ∨
          ∃ cn, Vm.containerName vm = some cn ∧ ∃ pre post, cn = pre ++ f ++ post))) := by
  have hempty : ∀ s : Str, SpecCaseInsensitiveSubstring [] s := by
    intro s
    exact ⟨lowerStr s, [], by simp [lowerStr]⟩
  refine ⟨?_, ?_, ?_, ?_, ?_⟩
  · intro f n vm hn
    unfold searchNameMatch
    rw [hn]
    cases hf : jsTruthy (some f) with
    | false =>
      have hfe : f = [] := by
        simpa [jsTruthy, List.isEmpty_iff] using hf
      subst hfe
      simpa using hempty n
    | true =>
      simp only [hf, Bool.not_true, Bool.false_or, Option.getD_some]
      exact optLowerIncludes_iff
  · intro f d vm hd
    unfold searchLegacyVdcMatch
    rw [hd]
    cases hf : jsTruthy (some f) with
    | false =>
      have hfe : f = [] := by
        simpa [jsTruthy, List.isEmpty_iff] using hf
      subst hfe
      simpa using hempty d
    | true =>
      simp only [hf, Bool.not_true, Bool.false_or, Option.getD_some]
      exact optLowerIncludes_iff
  · intro f d vm hd
    unfold searchCloudVdcMatch
    rw [hd]
    cases hf : jsTruthy (some f) with
    | false =>
      have hfe : f = [] := by
        simpa [jsTruthy, List.isEmpty_iff] using hf
      subst hfe
      simpa using hempty d
    | true =>
      simp only [hf, Bool.not_true, Bool.false_or, Option.getD_some]
      exact optLowerIncludes_iff
  · intro f s vm hf hs
    unfold statusMatch
    rw [hs, hf]
    simp [beq_iff_eq]
  · intro f vm hf
    unfold listVmsLegacyVappMatch
    rw [hf]
    simp only [Bool.not_true, Bool.false_or, Bool.or_eq_true, beq_iff_eq,
      Option.getD_some]
    constructor
    · rintro (hc | hcn)
      · exact Or.inl hc
      · rcases hv : vm.containerName with _ | cn
        · rw [hv] at hcn
          simp at hcn
        · rw [hv] at hcn
          simp only at hcn
          exact Or.inr ⟨cn, rfl, (includes_iff cn f).mp hcn⟩
    · rintro (hc | ⟨cn, hcn, hsub⟩)
      · exact Or.inl hc
      · rw [hcn]
        exact Or.inr ((includes_iff cn f).mpr hsub)

/-- Witness: the amended string-predicate theorem applied at concrete values:
a case-insensitively matching name, a matching exact status, and a
case-sensitively matching container name. -/
theorem string_predicate_semantics_witness :
    (searchNameMatch (some "eb-0".toList) { name := some "WEB-01".toList } = true ↔
      SpecCaseInsensitiveSubstring "eb-0".toList "WEB-01".toList) ∧
    (statusMatch (some "ON".toList) { status := some "ON".toList } = true ↔
      "ON".toList = "ON".toList) ∧
    (listVmsLegacyVappMatch (some "app".toList)
        { containerName := some "my-app-1".toList } = true ↔
      ({ containerName := some "my-app-1".toList } : Vm).container = some "app".toList ∨
        ∃ cn, ({ containerName := some "my-app-1".toList } : Vm).containerName = some cn ∧
          ∃ pre post, cn = pre ++ "app".toList ++ post) :=
  ⟨string_predicate_semantics.1 "eb-0".toList "WEB-01".toList
      { name := some "WEB-01".toList } rfl,
   string_predicate_semantics.2.2.2.1 "ON".toList "ON".toList
      { status := some "ON".toList } (by decide) rfl,
   string_predicate_semantics.2.2.2.2 "app".toList
      { containerName := some "my-app-1".toList } (by decide)⟩

/-- C6: the time predicates of the task and event listings match exactly when
the record's timestamp is at least the lower bound (the bound itself
included), and a record with no timestamp never matches. -/
theorem time_predicate_inclusive_lower_bound :
    (∀ since t (task : Task), Task.startTime task = some t →
      (taskTimeMatch since task = true ↔ since ≤ t)) ∧
    (∀ since (task : Task), Task.startTime task = none →
      taskTimeMatch since task = false) ∧
    (∀ since t (event : Event), Event.timeStamp event = some t →
      (eventTimeMatch since event = true ↔ since ≤ t)) ∧
    (∀ since (event : Event), Event.timeStamp event = none →
      eventTimeMatch since event = false) := by
  refine ⟨?_, ?_, ?_, ?_⟩
  · intro since t task h
    simp [taskTimeMatch, h]
  · intro since task h
    simp [taskTimeMatch, h]
  · intro since t event h
    simp [eventTimeMatch, h]
  · intro since event h
    simp [eventTimeMatch, h]

/-- Witness: the time-predicate theorem at the boundary instant and at a
record with no timestamp. -/
theorem time_predicate_inclusive_lower_bound_witness :
    (taskTimeMatch 5 { startTime := some 5 } = true ↔ (5 : Int) ≤ 5) ∧
    taskTimeMatch 5 {} = false ∧
    (eventTimeMatch 7 { timeStamp := some 6 } = true ↔ (7 : Int) ≤ 6) ∧
    eventTimeMatch 7 {} = false :=
  ⟨time_predicate_inclusive_lower_bound.1 5 5 { startTime := some 5 } rfl,
   time_predicate_inclusive_lower_bound.2.1 5 {} rfl,
   time_predicate_inclusive_lower_bound.2.2.1 7 6 { timeStamp := some 6 } rfl,
   time_predicate_inclusive_lower_bound.2.2.2 7 {} rfl⟩

/-- C3: when at least one source succeeds and at least one other fails, the
aggregation still returns normally (the core is a total function): the outcome
list has exactly one entry per attempted source, in invocation order; each
successful source gets a success entry carrying its raw count and each failed
source a failure entry carrying its caught code; and every filtered record of
a successful source keeps a same-named representative in the deduplicated
result. -/
theorem partial_failure_resilience (vappId status : Option Str)
    (s1 s2 s3 : SourceResult)
    (hok : (∃ i, s1 = SourceResult.ok i) ∨ (∃ i, s2 = SourceResult.ok i) ∨
      (∃ i, s3 = SourceResult.ok i))
    (hfail : (∃ c, s1 = SourceResult.err c) ∨ (∃ c, s2 = SourceResult.err c) ∨
      (∃ c, s3 = SourceResult.err c)) :
    (listVmsCore vappId status s1 s2 s3).outcomes.length = 3 ∧
    (∀ items, s1 = SourceResult.ok items →
      (listVmsCore vappId status s1 s2 s3).outcomes[0]? =
        some (Outcome.success descStdVm items.length) ∧
      ∀ vm ∈ items.filter (listVmsFilterLegacy vappId status),
        ∃ w ∈ (listVmsCore vappId status s1 s2 s3).records, w.name = vm.name) ∧
    (∀ code, s1 = SourceResult.err code →
      (listVmsCore vappId status s1 s2 s3).outcomes[0]? =
        some (Outcome.failure descStdVm code)) ∧
    (∀ items, s2 = SourceResult.ok items →
      (listVmsCore vappId status s1 s2 s3).outcomes[1]? =
        some (Outcome.success descAdminVm items.length) ∧
      ∀ vm ∈ items.filter (listVmsFilterLegacy vappId status),
        ∃ w ∈ (listVmsCore vappId status s1 s2 s3).records, w.name = vm.name) ∧
    (∀ code, s2 = SourceResult.err code →
      (listVmsCore vappId status s1 s2 s3).outcomes[1]? =
        some (Outcome.failure descAdminVm code)) ∧
    (∀ items, s3 = SourceResult.ok items →
      (listVmsCore vappId status s1 s2 s3).outcomes[2]? =
        some (Outcome.success descCloud items.length) ∧
      ∀ vm ∈ items.filter (listVmsFilterCloud vappId status),
        ∃ w ∈ (listVmsCore vappId status s1 s2 s3).records, w.name = vm.name) ∧
    (∀ code, s3 = SourceResult.err code →
      (listVmsCore vappId status s1 s2 s3).outcomes[2]? =
        some (Outcome.failure descCloud code)) := by
  refine ⟨rfl, ?_, ?_, ?_, ?_, ?_, ?_⟩
  · rintro items rfl
    refine ⟨rfl, ?_⟩
    intro vm hvm
    exact dedupeByName_covers (List.mem_append_left _ (List.mem_append_left _ hvm))
  · rintro code rfl
    rfl
  · rintro items rfl
    refine ⟨rfl, ?_⟩
    intro vm hvm
    exact dedupeByName_covers (List.mem_append_left _ (List.mem_append_right _ hvm))
  · rintro code rfl
    rfl
  · rintro items rfl
    refine ⟨rfl, ?_⟩
    intro vm hvm
    exact dedupeByName_covers (List.mem_append_right _ hvm)
  · rintro code rfl
    rfl

/-- Witness: source 1 succeeds with one record, source 2 fails with code 403,
source 3 succeeds empty; the outcome entries and record containment follow by
the resilience theorem. -/
theorem partial_failure_resilience_witness :
    ((listVmsCore none none (SourceResult.ok [{ name := some "w".toList }])
        (SourceResult.err (some 403)) (SourceResult.ok [])).outcomes[0]? =
      some (Outcome.success descStdVm 1) ∧
    ∀ vm ∈ List.filter (listVmsFilterLegacy none none)
        [({ name := some "w".toList } : Vm)],
      ∃ w ∈ (listVmsCore none none (SourceResult.ok [{ name := some "w".toList }])
          (SourceResult.err (some 403)) (SourceResult.ok [])).records,
        w.name = vm.name) ∧
    (listVmsCore none none (SourceResult.ok [{ name := some "w".toList }])
        (SourceResult.err (some 403)) (SourceResult.ok [])).outcomes[1]? =
      some (Outcome.failure descAdminVm (some 403)) :=
  ⟨(partial_failure_resilience none none
      (SourceResult.ok [{ name := some "w".toList }]) (SourceResult.err (some 403))
      (SourceResult.ok []) (Or.inl ⟨_, rfl⟩) (Or.inr (Or.inl ⟨_, rfl⟩))).2.1
      [{ name := some "w".toList }] rfl,
   (partial_failure_resilience none none
      (SourceResult.ok [{ name := some "w".toList }]) (SourceResult.err (some 403))
      (SourceResult.ok []) (Or.inl ⟨_, rfl⟩) (Or.inr (Or.inl ⟨_, rfl⟩))).2.2.2.2.1
      (some 403) rfl⟩

/-- C7 counterexample: in a two-record batch whose second record lacks its
attribute bag, the first, well-formed record does not appear in the batch
output — the whole batch is dropped, not just the malformed record. -/
theorem malformed_record_drops_batch :
    vappsFromXml [{ attrs := some { name := some "good".toList } }, { attrs := none }] =
      [] ∧
    extractVapp { attrs := some { name := some "good".toList } } =
      Except.ok (extractVappAttrs { name := some "good".toList }) :=
  ⟨rfl, rfl⟩

/-- C7 amended: batch normalization is all-or-nothing rather than per-record:
if every record has its attribute bag the whole batch is normalized (a record
with missing attributes inside the bag gets unset fields, it is not dropped),
while one record with an absent attribute bag makes the caught TypeError
abandon the whole batch, yielding no records; in neither case is an error
raised to the caller. -/
theorem batch_normalization_all_or_nothing :
    (∀ records : List RawXmlRecord, (∀ r ∈ records, RawXmlRecord.attrs r ≠ none) →
      vappsFromXml records =
        records.map (fun r => extractVappAttrs ((RawXmlRecord.attrs r).getD {}))) ∧
    (∀ (records : List RawXmlRecord) (r : RawXmlRecord), r ∈ records →
      RawXmlRecord.attrs r = none → vappsFromXml records = []) := by
  constructor
  · intro records h
    unfold vappsFromXml
    rw [mapExceptList_extractVapp_ok h]
  · intro records r hr ha
    unfold vappsFromXml
    rw [mapExceptList_extractVapp_error hr ha]

/-- Witness: a fully well-formed batch normalizes completely, and the same
batch with a bag-less record appended normalizes to nothing. -/
theorem batch_normalization_all_or_nothing_witness :
    vappsFromXml [{ attrs := some { name := some "g".toList } }] =
      [extractVappAttrs { name := some "g".toList }] ∧
    vappsFromXml [{ attrs := some { name := some "g".toList } }, { attrs := none }] =
      [] :=
  ⟨batch_normalization_all_or_nothing.1 [{ attrs := some { name := some "g".toList } }]
      (by decide),
   batch_normalization_all_or_nothing.2
      [{ attrs := some { name := some "g".toList } }, { attrs := none }]
      { attrs := none } (by decide) rfl⟩

/-- C8: when a raw record's attribute bag carries an href containing a slash
(the bag exposes no bare identifier at all), the normalized identifier is the
final path segment of the href — the substring after its last slash. -/
theorem identifier_is_last_path_segment (a : VappAttrs) (pre suf : Str)
    (hh : VappAttrs.href a = some (pre ++ '/' :: suf)) (hs : ('/' : Char) ∉ suf) :
    ∃ v, extractVapp { attrs := some a } = Except.ok v ∧ Vapp.id v = some suf := by
  refine ⟨extractVappAttrs a, rfl, ?_⟩
  simp [extractVappAttrs, hh, lastSegment_append hs]

/-- Witness: the identifier extracted from a concrete href is its last path
segment. -/
theorem identifier_is_last_path_segment_witness :
    ∃ v, extractVapp
        { attrs := some { href := some "https://h/api/vApp/vapp-7".toList } } =
      Except.ok v ∧ Vapp.id v = some "vapp-7".toList :=
  identifier_is_last_path_segment
    { href := some "https://h/api/vApp/vapp-7".toList }
    "https://h/api/vApp".toList "vapp-7".toList (by decide) (by decide)

end CloudDirector
